import Mathlib

/-!
# Verification of the wa-finance-assistant extraction & category pipeline

A shallow embedding, in Lean 4, of the claim-relevant parts of the
`wa-finance-assistant` repository:

* the category resolver (`getCategoryByName` / `fuzzyMatchCategory`) and the
  catalog queries (`getCategoriesForFamily`, `findCategoryIdByName`,
  `addCategoryToFamily`) from the supabase service module;
* the AI response normalizer (`normalizeTransaction` / `_parseTransactionJSON`)
  of the Gemini provider (the later, array-aware revision);
* the Joi `transactionSchema` validation and the `saveTransaction` /
  per-candidate loop of `messageController.js`;
* the AI service factory (`setProvider`, `extractFromAudio`).

JavaScript strings are modelled as Lean `String`s, with the JS methods
(`toLowerCase`, `trim`, `includes`) re-implemented over the underlying
character list so that every definition evaluates by kernel reduction.  The
re-implementations agree with JS on the ASCII fragment exercised here (JS
`toLowerCase`/`trim` additionally handle non-ASCII letters and exotic Unicode
whitespace, which no claim touches).  JSON values are modelled by an explicit
`JVal` type; JS `parseFloat` is modelled over rationals (JS numbers are IEEE
doubles; no claim depends on rounding), with `none` standing for `NaN`.
-/

namespace WaFinance

/-! ## JS string primitives -/

/-- ASCII case folding, as JS `String.prototype.toLowerCase` acts on the
ASCII range. -/
def lowerChar (c : Char) : Char :=
  if c.toNat ≥ 65 && c.toNat ≤ 90 then Char.ofNat (c.toNat + 32) else c

/-- JS `s.toLowerCase()` (ASCII fragment). -/
def jsToLower (s : String) : String := String.mk (s.data.map lowerChar)

/-- Whitespace recognised by the model of JS `trim` (ASCII fragment). -/
def isJsSpace (c : Char) : Bool :=
  c = ' ' || c = '\t' || c = '\n' || c = '\r'

/-- JS `s.trim()` (ASCII fragment). -/
def jsTrim (s : String) : String :=
  String.mk (((s.data.dropWhile isJsSpace).reverse.dropWhile isJsSpace).reverse)

/-- `leadsWith n h` is true when `n` is an initial segment of `h`. -/
def leadsWith : List Char → List Char → Bool
  | [], _ => true
  | _ :: _, [] => false
  | a :: as, b :: bs => a = b && leadsWith as bs

/-- `containsSeg h n` is true when `n` occurs contiguously inside `h`. -/
def containsSeg (hay needle : List Char) : Bool :=
  match hay with
  | [] => needle.isEmpty
  | _ :: t => leadsWith needle hay || containsSeg t needle

/-- JS `s.includes(t)`. -/
def strIncludes (s t : String) : Bool := containsSeg s.data t.data

/-- Byte-wise lexicographic comparison of character lists; stands in for the
store's `ORDER BY name` collation. -/
def lexLeCh : List Char → List Char → Bool
  | [], _ => true
  | _ :: _, [] => false
  | a :: as, b :: bs =>
    if a.toNat = b.toNat then lexLeCh as bs else decide (a.toNat < b.toNat)

/-- Name ordering used to model the store's `ORDER BY name ASC`. -/
def nameLe (a b : String) : Bool := lexLeCh a.data b.data

/-! ## Category catalog rows

`Category` models a row of the `categories` table (family-scoped category
instances, `infra`/`SCHEMA_AUDIT.md`); `DefaultCategory` models a row of the
system-wide `default_categories` table, which has no `category_id` and no
tombstone columns. Only the claim-relevant columns are carried. -/

structure Category where
  category_id : String
  family_id : String
  default_category_id : Option String
  name : String
  type : String
  is_deleted : Bool
deriving DecidableEq, Repr

structure DefaultCategory where
  default_category_id : String
  name : String
  type : String
deriving DecidableEq, Repr

/-! ## Category resolver (`getCategoryByName`, `fuzzyMatchCategory`)

Embeds the pure resolver of the supabase service module.  The synonym table
is the `categoryMappings` object literal; JS object literals iterate string
keys in insertion order, so an ordered association list is the faithful
model.  The resolver functions are stated over an arbitrary table (the source
hardcodes `categoryMappings`) so that claims quantifying over synonym-table
contents can be expressed; the unparameterised definitions instantiate the
source's table. -/

def categoryMappings : List (String × List String) := [
  ("bills", ["house", "utilities", "bill"]),
  ("home", ["house"]),
  ("house", ["home", "bills"]),
  ("groceries", ["food", "food & dinning"]),
  ("food", ["food & dinning", "groceries"]),
  ("dining", ["food & dinning", "food"]),
  ("restaurant", ["food & dinning", "entertainment"]),
  ("transport", ["transportation"]),
  ("car", ["transportation"]),
  ("fuel", ["transportation"]),
  ("gas", ["transportation"]),
  ("medical", ["health & personal care"]),
  ("health", ["health & personal care"]),
  ("doctor", ["health & personal care"]),
  ("medicine", ["health & personal care"]),
  ("movies", ["entertainment"]),
  ("game", ["entertainment"]),
  ("gym", ["health & personal care"]),
  ("salary", ["employment"]),
  ("income", ["employment", "other"]),
  ("investment", ["investment"]),
  ("rent", ["rental", "house"]),
  ("rental", ["rent"]),
  ("education", ["education"]),
  ("school", ["education"]),
  ("kids", ["child care"]),
  ("children", ["child care"]),
  ("baby", ["child care"]),
  ("pet", ["pets"]),
  ("dog", ["pets"]),
  ("cat", ["pets"]),
  ("shopping", ["shopping"]),
  ("clothes", ["shopping"]),
  ("travel", ["travel"]),
  ("trip", ["travel"]),
  ("vacation", ["travel"]),
  ("flight", ["travel"]),
  ("business", ["business"])]

/-- Inner loop of the synonym tier: for one keyword's target names, return the
first catalog entry whose lowercased name contains a target. -/
def findByTargets (avail : List Category) : List String → Option Category
  | [] => none
  | t :: ts =>
    match avail.find? (fun cat => strIncludes (jsToLower cat.name) (jsToLower t)) with
    | some c => some c
    | none => findByTargets avail ts

/-- Outer loop of the synonym tier: scan the keyword table in order; for each
keyword contained in the (lowered, trimmed) label, try its targets; on a miss
continue with the remaining keywords. -/
def keywordScan (avail : List Category) (requested : String) :
    List (String × List String) → Option Category
  | [] => none
  | (kw, targets) :: rest =>
    if strIncludes requested kw then
      match findByTargets avail targets with
      | some c => some c
      | none => keywordScan avail requested rest
    else keywordScan avail requested rest

/-- `fuzzyMatchCategory` with an explicit synonym table: keyword tier, then
bidirectional substring containment. -/
def fuzzyMatchCategoryWith (table : List (String × List String))
    (requestedCategory : String) (avail : List Category) : Option Category :=
  let requested := jsTrim (jsToLower requestedCategory)
  match keywordScan avail requested table with
  | some c => some c
  | none =>
    avail.find? (fun cat =>
      strIncludes requested (jsToLower cat.name) ||
      strIncludes (jsToLower cat.name) requested)

/-- `fuzzyMatchCategory` from the supabase service module. -/
def fuzzyMatchCategory : String → List Category → Option Category :=
  fuzzyMatchCategoryWith categoryMappings

/-- Predicate of the resolver's final fallback tier: an entry named `other`
(case-insensitively) with `expense` polarity. -/
def isOtherExpense (cat : Category) : Bool :=
  jsToLower cat.name == "other" && cat.type == "expense"

/-- `getCategoryByName` with an explicit synonym table.  Tiers: empty-catalog
guard, exact match on the lowered-and-trimmed label, fuzzy match, `Other`
fallback, `null`. -/
def getCategoryByNameWith (table : List (String × List String))
    (categoryName : String) (avail : List Category) : Option String :=
  if avail.isEmpty then none
  else
    let requested := jsTrim (jsToLower categoryName)
    match avail.find? (fun cat => jsToLower cat.name == requested) with
    | some c => some c.category_id
    | none =>
      match fuzzyMatchCategoryWith table categoryName avail with
      | some c => some c.category_id
      | none =>
        match avail.find? isOtherExpense with
        | some c => some c.category_id
        | none => none

/-- `getCategoryByName` from the supabase service module (string label). -/
def getCategoryByName : String → List Category → Option String :=
  getCategoryByNameWith categoryMappings

/-! ## JSON values and JS value semantics

`JVal` models a JavaScript value produced by `JSON.parse` (no `undefined`,
no `NaN`).  Property access on an object yields `Option JVal`, with `none`
standing for `undefined`; `JSON.parse` keeps the last of duplicate keys, so
lookup takes the last binding. -/

inductive JVal where
  | jnull
  | jbool (b : Bool)
  | jnum (q : ℚ)
  | jstr (s : String)
  | jarr (elems : List JVal)
  | jobj (fields : List (String × JVal))

/-- JS property access `obj.k` on a parsed object (last duplicate key wins,
absent key is `undefined`). -/
def jlookup (fields : List (String × JVal)) (k : String) : Option JVal :=
  (fields.reverse.find? (fun e => e.1 == k)).map (fun e => e.2)

/-- JS truthiness of a parsed value (`NaN` and `undefined` cannot occur in
`JSON.parse` output). -/
def jsTruthy : JVal → Bool
  | .jnull => false
  | .jbool b => b
  | .jnum q => !(q == 0)
  | .jstr s => !(s == "")
  | .jarr _ => true
  | .jobj _ => true

/-- JS truthiness of a property-access result (`undefined` is falsy). -/
def jsTruthyOpt : Option JVal → Bool
  | none => false
  | some x => jsTruthy x

/-- JS `v || d` for a property-access result. -/
def jsOr (v : Option JVal) (d : JVal) : JVal :=
  match v with
  | some x => if jsTruthy x then x else d
  | none => d

/-- JS `v || d` for two values. -/
def jsOrV (v d : JVal) : JVal := if jsTruthy v then v else d

/-! ## JS `parseFloat`

Longest numeric prefix after leading whitespace: optional sign, digits,
optional fraction, optional exponent.  `none` stands for `NaN`.  The
`Infinity` keyword is not representable in `ℚ` and is modelled as `NaN`; no
claim exercises it. -/

def digitVal (c : Char) : Option Nat :=
  if c.toNat ≥ 48 && c.toNat ≤ 57 then some (c.toNat - 48) else none

/-- Split off a maximal run of leading decimal digits. -/
def takeDigits : List Char → List Nat × List Char
  | [] => ([], [])
  | c :: cs =>
    match digitVal c with
    | some d => let p := takeDigits cs; (d :: p.1, p.2)
    | none => ([], c :: cs)

def natOfDigits (ds : List Nat) : Nat := ds.foldl (fun a d => a * 10 + d) 0

/-- Optional sign; returns the sign as `1` or `-1` and the rest. -/
def takeSign : List Char → ℤ × List Char
  | '+' :: cs => (1, cs)
  | '-' :: cs => (-1, cs)
  | cs => (1, cs)

/-- Exponent part: `e`/`E`, optional sign, digits; an exponent with no digits
is not consumed (JS leaves the value unscaled). -/
def takeExp : List Char → ℤ
  | 'e' :: cs =>
    let sp := takeSign cs
    let dp := takeDigits sp.2
    if dp.1.isEmpty then 0 else sp.1 * (natOfDigits dp.1 : ℤ)
  | 'E' :: cs =>
    let sp := takeSign cs
    let dp := takeDigits sp.2
    if dp.1.isEmpty then 0 else sp.1 * (natOfDigits dp.1 : ℤ)
  | _ => 0

/-- JS `parseFloat` on a string; `none` is `NaN`. -/
def parseFloatStr (s : String) : Option ℚ :=
  let cs := s.data.dropWhile isJsSpace
  let sp := takeSign cs
  let ip := takeDigits sp.2
  let fp := match ip.2 with
            | '.' :: t => takeDigits t
            | _ => ([], ip.2)
  if ip.1.isEmpty && fp.1.isEmpty then none
  else
    let mantissa : ℚ :=
      (natOfDigits ip.1 : ℚ) + (natOfDigits fp.1 : ℚ) / ((10 : ℚ) ^ fp.1.length)
    some ((sp.1 : ℚ) * mantissa * (10 : ℚ) ^ takeExp fp.2)

/-- JS `parseFloat` applied to an arbitrary value.  Numbers pass through;
strings are parsed; `true`/objects stringify to non-numeric text (`NaN`).
An array stringifies to its comma-joined elements, which can be numeric
(e.g. `[5]` → `5`); that corner is approximated as `NaN` — it can only change
the numeric value of a kept element, which no claim depends on. -/
def jsParseFloat : JVal → Option ℚ
  | .jnum q => some q
  | .jstr s => parseFloatStr s
  | _ => none

def jsParseFloatOpt : Option JVal → Option ℚ
  | none => none
  | some v => jsParseFloat v

/-- ASCII upper-casing for JS `String.prototype.toUpperCase`. -/
def upperChar (c : Char) : Char :=
  if c.toNat ≥ 97 && c.toNat ≤ 122 then Char.ofNat (c.toNat - 32) else c

/-- JS `s.toUpperCase()` (ASCII fragment). -/
def jsToUpper (s : String) : String := String.mk (s.data.map upperChar)

/-! ## Response normalizer (`GeminiProvider._parseTransactionJSON`, array-aware
revision)

`Candidate` carries the eight fields the normalizer emits.  Field values are
kept as `JVal` because the source only applies defaults by truthiness, so a
truthy non-string survives into the candidate (and is then rejected by the
Joi schema).  `amount` is the `parseFloat` result (`none` = `NaN`). -/

structure Candidate where
  type : JVal
  amount : Option ℚ
  currency : JVal
  date : JVal
  category : JVal
  vendor : JVal
  description : JVal
  raw_text : JVal

/-- The `normalizeTransaction` helper.  `today` models
`new Date().toISOString().split('T')[0]`.  Returns `.ok none` for a dropped
element, `.error ()` when the element makes the JS code throw: the only
throwing operation is `.toUpperCase()` on a truthy non-string `currency`
(`(txn.currency || 'INR').toUpperCase()`).  Non-objects fail the
`typeof txn !== 'object'` guard (and a `null`/array element falls to the
falsy-`amount` drop), so every non-`jobj` value yields `.ok none` exactly as
in the source. -/
def normalizeTransaction (today : String) (txn : JVal) : Except Unit (Option Candidate) :=
  match txn with
  | .jobj fields =>
    let amount := jlookup fields "amount"
    if jsTruthyOpt amount = false then .ok none
    else
      match jsOr (jlookup fields "currency") (.jstr "INR") with
      | .jstr cur =>
        .ok (some {
          type := jsOr (jlookup fields "type") (.jstr "debit"),
          amount := jsParseFloatOpt amount,
          currency := .jstr (jsToUpper cur),
          date := jsOr (jlookup fields "date") (.jstr today),
          category := jsOr (jlookup fields "category") (.jstr "Other"),
          vendor := jsOr (jlookup fields "vendor") .jnull,
          description := jsOr (jlookup fields "description") (.jstr ""),
          raw_text := jsOr (jlookup fields "raw_text") (.jstr "") })
      | _ => .error ()
  | _ => .ok none

/-- `parsed.map(normalizeTransaction)` with JS exception propagation. -/
def mapNormalize (today : String) : List JVal → Except Unit (List (Option Candidate))
  | [] => .ok []
  | t :: ts =>
    match normalizeTransaction today t with
    | .error e => .error e
    | .ok c =>
      match mapNormalize today ts with
      | .error e => .error e
      | .ok cs => .ok (c :: cs)

/-- Shape of a successful `_parseTransactionJSON` result: a bare candidate
(single-object input) or a non-empty candidate list (array input). -/
inductive ParseOut where
  | single (c : Candidate)
  | multiple (cs : List Candidate)

/-- `_parseTransactionJSON` after `JSON.parse`: the fence-stripping and the
parse itself are abstracted into the `Option JVal` argument (`none` = the
parse threw).  A falsy parse result hits `if (!parsed) throw`, caught to
`null`.  For an array, each element is normalized and `null`s filtered; an
empty survivor list yields `null` (`normalized.length > 0 ? normalized :
null`).  A single object yields the bare normalized candidate or `null`. -/
def parseTransactionJSON (today : String) : Option JVal → Option ParseOut
  | none => none
  | some parsed =>
    if jsTruthy parsed = false then none
    else
      match parsed with
      | .jarr l =>
        match mapNormalize today l with
        | .error _ => none
        | .ok opts =>
          let normalized := opts.filterMap id
          if normalized.length > 0 then some (.multiple normalized) else none
      | v =>
        match normalizeTransaction today v with
        | .error _ => none
        | .ok none => none
        | .ok (some c) => some (.single c)

/-- The caller's wrapping in `messageController` (`handleTextMessage` etc.):
`if (!result) … return;` then
`const transactions = Array.isArray(result) ? result : [result]`. -/
def resultToList : Option ParseOut → Option (List Candidate)
  | none => none
  | some (.single c) => some [c]
  | some (.multiple cs) => some cs

/-! ## Joi `transactionSchema` (validators module)

Field-by-field model of the schema's acceptance.  Joi conversions that only
rewrite the accepted value (currency upper-casing, `precision(2)` rounding of
the amount) are not tracked; rounding cannot turn a non-positive amount into
an accepted positive one, so acceptance implies a strictly positive original
amount either way.  `Joi.date().max('now')` parses arbitrary JS values against
a wall clock, which the embedding abstracts as a `dateOk` parameter; every
theorem quantifies over it. -/

def typeOkJ : JVal → Bool
  | .jstr s => s == "credit" || s == "debit"
  | _ => false

/-- `Joi.string().max(n).allow(null, '')`. -/
def strFieldOk (maxLen : Nat) : JVal → Bool
  | .jnull => true
  | .jstr s => decide (s.length ≤ maxLen)
  | _ => false

/-- `Joi.number().positive().precision(2).required()`; `none` is `NaN`. -/
def amountOk : Option ℚ → Bool
  | none => false
  | some q => decide (0 < q)

/-- `Joi.string().length(3).uppercase().default('INR')`. -/
def currencyOk : JVal → Bool
  | .jstr s => s.length == 3
  | _ => false

/-- `Joi.string().allow(null, '')`. -/
def rawTextOk : JVal → Bool
  | .jnull => true
  | .jstr _ => true
  | _ => false

/-- Acceptance of the Joi `transactionSchema`. -/
def transactionValid (dateOk : JVal → Bool) (c : Candidate) : Bool :=
  typeOkJ c.type && amountOk c.amount && currencyOk c.currency &&
  strFieldOk 50 c.category && dateOk c.date &&
  strFieldOk 500 c.description && strFieldOk 100 c.vendor && rawTextOk c.raw_text

/-! ## Persistence (`saveTransaction` and the per-candidate loop,
`messageController.js`) -/

structure UserCtx where
  user_id : String
  family_id : String

/-- The row assembled by `saveTransaction` for `insertTransaction` (the
claim-relevant columns). -/
structure TxRow where
  family_id : String
  user_id : String
  amount : Option ℚ
  type : JVal
  description : JVal
  date : JVal
  category_id : Option String

/-- JS string coercion for the template literal in the description default.
Number formatting and array/object stringification are approximated (no claim
reads the description). -/
def jsDisplay : JVal → String
  | .jstr s => s
  | .jnull => "null"
  | .jbool b => cond b "true" "false"
  | .jnum _ => "number"
  | .jarr _ => ""
  | .jobj _ => "object"

/-- `value.description || value.vendor || ` followed by the category-named
template default. -/
def mkDescription (c : Candidate) : JVal :=
  jsOrV c.description (jsOrV c.vendor (.jstr (jsDisplay c.category ++ " transaction")))

/-- The resolver as invoked on `value.category`, which is a JS value: a
non-string makes `categoryName.toLowerCase()` throw, caught to `null`. -/
def getCategoryByNameJV : JVal → List Category → Option String
  | .jstr s, cats => getCategoryByName s cats
  | _, _ => none

/-- Observable outcome of one `saveTransaction` call.  The JS function
swallows every error internally (it messages the user and returns), so the
outcome is total; `insertOk` models success of the store write. -/
inductive SaveOutcome where
  | validationFailed
  | saved (row : TxRow)
  | persistFailed

/-- The `transactionData` object assembled by `saveTransaction` from the
validated candidate, the user and the pre-fetched catalog. -/
def mkTxRow (user : UserCtx) (categories : List Category) (txn : Candidate) : TxRow :=
  { family_id := user.family_id,
    user_id := user.user_id,
    amount := txn.amount,
    type := txn.type,
    description := mkDescription txn,
    date := txn.date,
    category_id := getCategoryByNameJV txn.category categories }

/-- `saveTransaction` of `messageController.js`: validate against the Joi
schema (failure returns with no write), resolve the category against the
pre-fetched catalog, assemble the row, insert. -/
def saveTransaction (dateOk : JVal → Bool) (insertOk : TxRow → Bool)
    (user : UserCtx) (categories : List Category) (txn : Candidate) : SaveOutcome :=
  if transactionValid dateOk txn = false then .validationFailed
  else if insertOk (mkTxRow user categories txn) then .saved (mkTxRow user categories txn)
  else .persistFailed

/-- The per-candidate loop of `handleTextMessage` / `handleImageMessage` /
`handleAudioMessage`: `for (const transaction of transactions) { await
saveTransaction(...) }`, one outcome per candidate, the loop never aborts
because `saveTransaction` recovers every error internally. -/
def processCandidates (dateOk : JVal → Bool) (insertOk : TxRow → Bool)
    (user : UserCtx) (categories : List Category) : List Candidate → List SaveOutcome
  | [] => []
  | t :: ts =>
    saveTransaction dateOk insertOk user categories t ::
    processCandidates dateOk insertOk user categories ts

/-! ## Catalog store and its queries (supabase service module)

`Store` models the two tables; the PostgREST queries become filters and
sorts over them.  `ORDER BY name ASC` is modelled by a stable insertion sort
under `nameLe`. -/

structure Store where
  defaults : List DefaultCategory
  cats : List Category

/-- View row returned by the catalog listing (`category_id, name, type, …`). -/
structure CatView where
  category_id : String
  name : String
  type : String
deriving DecidableEq, Repr

def insertByName (c : CatView) : List CatView → List CatView
  | [] => [c]
  | d :: ds => if nameLe c.name d.name then c :: d :: ds else d :: insertByName c ds

/-- Stable sort by `name`, modelling the store's `ORDER BY name ASC`. -/
def sortByName : List CatView → List CatView
  | [] => []
  | c :: cs => insertByName c (sortByName cs)

/-- Projection of a `default_categories` row: the query aliases
`category_id:default_category_id`, so the template identifier is exposed as
`category_id`. -/
def defaultView (dc : DefaultCategory) : CatView :=
  { category_id := dc.default_category_id, name := dc.name, type := dc.type }

def catView (c : Category) : CatView :=
  { category_id := c.category_id, name := c.name, type := c.type }

/-- Filter of the custom-category query: `family_id` equal, `is_deleted`
false, `default_category_id` null. -/
def isCustomActive (familyId : String) (c : Category) : Bool :=
  c.family_id == familyId && c.is_deleted == false && c.default_category_id.isNone

/-- `getCategoriesForFamily` of the supabase service module: all
`default_categories` rows ordered by name, concatenated with the family's
active custom rows ordered by name. -/
def getCategoriesForFamily (st : Store) (familyId : String) : List CatView :=
  sortByName (st.defaults.map defaultView) ++
  sortByName ((st.cats.filter (isCustomActive familyId)).map catView)

/-! ## `ILIKE` pattern matching and idempotent category creation -/

/-- SQL `LIKE` on character lists: `%` matches any run, an underscore matches
one character, other characters literally. -/
def likeMatch : (p : List Char) → (s : List Char) → Bool
  | [], s => s.isEmpty
  | p :: ps, s =>
    if p = '%' then
      match s with
      | [] => likeMatch ps []
      | c :: cs => likeMatch ps (c :: cs) || likeMatch (p :: ps) cs
    else
      match s with
      | [] => false
      | c :: cs => if p = '_' then likeMatch ps cs else (p = c && likeMatch ps cs)
termination_by p s => (s.length, p.length)

/-- PostgREST `.ilike(column, pattern)`: case-insensitive `LIKE`. -/
def iLike (pattern s : String) : Bool :=
  likeMatch (jsToLower pattern).data (jsToLower s).data

/-- The family's active custom rows matching `name ILIKE categoryName` — the
row set of `findCategoryIdByName`'s second query. -/
def activeCustomMatches (st : Store) (categoryName familyId : String) : List Category :=
  st.cats.filter (fun c =>
    c.family_id == familyId && iLike categoryName c.name &&
    c.is_deleted == false && c.default_category_id.isNone)

/-- `findCategoryIdByName` of the supabase service module.  Its first query
selects column `category_id` from `default_categories`; that table has no
such column (schema in `SCHEMA_AUDIT.md` / `NEW_CATEGORY_STRUCTURE.md`), so
the query errors and the `!defaultError` guard skips the branch.  What
remains is the custom-category query with `.single()` semantics: an id is
returned exactly when the filter matches exactly one row. -/
def findCategoryIdByName (st : Store) (categoryName familyId : String) : Option String :=
  match activeCustomMatches st categoryName familyId with
  | [c] => some c.category_id
  | _ => none

/-- `addCategoryToFamily` of the supabase service module: return the existing
category's id when `findCategoryIdByName` finds one, otherwise insert a fresh
custom row (`default_category_id = NULL`; `is_deleted` takes the schema
default `FALSE`).  `freshId` stands for the generated `uuidv4()`; a
successful insert returns the new id. -/
def newCustomRow (familyId categoryName ctype freshId : String) : Category :=
  { category_id := freshId,
    family_id := familyId,
    default_category_id := none,
    name := categoryName,
    type := ctype,
    is_deleted := false }

def addCategoryToFamily (st : Store) (familyId categoryName ctype freshId : String) :
    Option String × Store :=
  match findCategoryIdByName st categoryName familyId with
  | some id => (some id, st)
  | none =>
    (some freshId,
     { st with cats := st.cats ++ [newCustomRow familyId categoryName ctype freshId] })

/-! ## AI service factory (`AIServiceFactory.js`) -/

/-- The factory's state: the `providers` `Map` (insertion-ordered) and the
`currentProvider` reference. -/
structure Registry (P : Type) where
  providers : List (String × P)
  current : Option P

/-- `Map.prototype.get`. -/
def mapGet {P : Type} (l : List (String × P)) (k : String) : Option P :=
  (l.find? (fun e => e.1 == k)).map (fun e => e.2)

/-- `setProvider`: look up the lowercased name; on a miss, warn and return
`false`, first falling back to the first registered provider when none is
active; on a hit, switch and return `true`. -/
def setProvider {P : Type} (st : Registry P) (providerName : String) :
    Bool × Registry P :=
  match mapGet st.providers (jsToLower providerName) with
  | none =>
    if st.current.isNone && !st.providers.isEmpty then
      (false, { st with current := st.providers.head?.map (fun e => e.2) })
    else (false, st)
  | some p => (true, { st with current := some p })

/-- Failure conditions of `extractFromAudio`: the factory's own empty
transcript error (`'No text could be transcribed from audio'`), or a
rethrown failure of `transcribeAudio` itself. -/
inductive AudioErr where
  | transcriptionFailed
  | providerFailed
deriving BEq, DecidableEq, Repr

/-- Successful payloads of `extractFromAudio`: an array result with
`raw_text` rewritten on each element, a single candidate with `raw_text`
rewritten, or — when extraction returned `null` — the object `{...null,
raw_text}` holding only the transcript. -/
inductive AudioPayload where
  | multiple (cs : List Candidate)
  | single (c : Candidate)
  | singleNullSpread (raw : String)

/-- `AIServiceFactory.extractFromAudio`: transcribe (a throw propagates),
short-circuit on an empty or whitespace-only transcript
(`!transcribedText || transcribedText.trim().length === 0`), then extract
from the transcript and attach it as `raw_text`.  `extract` stands for
`extractFromText` of the active provider. -/
def extractFromAudio (transcribeResult : Except Unit String)
    (extract : String → Option ParseOut) : Except AudioErr AudioPayload :=
  match transcribeResult with
  | .error _ => .error .providerFailed
  | .ok transcribedText =>
    if transcribedText == "" || (jsTrim transcribedText).length == 0 then
      .error .transcriptionFailed
    else
      match extract transcribedText with
      | some (.multiple cs) =>
        .ok (.multiple (cs.map (fun c => { c with raw_text := .jstr transcribedText })))
      | some (.single c) =>
        .ok (.single { c with raw_text := .jstr transcribedText })
      | none => .ok (.singleNullSpread transcribedText)

/-! ## Derived definitions used by the theorems -/

/-- The resolver as called with an arbitrary JS value for the label (`none`
models `undefined`): `categoryName.toLowerCase()` throws on anything but a
string, and the catch-all returns `null`. -/
def getCategoryByNameJS (label : Option JVal) (cats : List Category) : Option String :=
  match label with
  | some (.jstr s) => getCategoryByName s cats
  | _ => none

/-- Whether normalizing an element makes the JS code throw. -/
def normThrows (today : String) (e : JVal) : Bool :=
  match normalizeTransaction today e with
  | .error _ => true
  | .ok _ => false

/-- The candidate kept for an element, `none` when dropped (or throwing). -/
def normKeep (today : String) (e : JVal) : Option Candidate :=
  match normalizeTransaction today e with
  | .ok c => c
  | .error _ => none

/-- Adjacent-pair check that a view list is sorted by name. -/
def sortedNames : List CatView → Bool
  | [] => true
  | [_] => true
  | a :: b :: t => nameLe a.name b.name && sortedNames (b :: t)

/-! ## Concrete fixtures used by counterexamples and witnesses -/

/-- Catalog entry whose name strictly contains the trimmed label `zzz`. -/
def exCatA : Category :=
  { category_id := "id-a", family_id := "fam", default_category_id := none,
    name := "azzz", type := "expense", is_deleted := false }

/-- Catalog entry whose name is literally the label `" zzz"` (so it equals the
label case-insensitively), but differs from the label once trimmed. -/
def exCatB : Category :=
  { category_id := "id-b", family_id := "fam", default_category_id := none,
    name := " zzz", type := "expense", is_deleted := false }

def exCatFood : Category :=
  { category_id := "id-food", family_id := "fam", default_category_id := none,
    name := "food", type := "expense", is_deleted := false }

def exOther : Category :=
  { category_id := "id-other", family_id := "fam", default_category_id := none,
    name := "Other", type := "expense", is_deleted := false }

/-- The candidate the normalizer produces from `{"amount": 7}` with today =
`2026-01-01`. -/
def cand7 : Candidate :=
  { type := .jstr "debit", amount := some 7, currency := .jstr "INR",
    date := .jstr "2026-01-01", category := .jstr "Other", vendor := .jnull,
    description := .jstr "", raw_text := .jstr "" }

/-- The candidate the normalizer produces from `{"amount": -50}` with today =
`2026-01-01`: the negative amount survives normalization. -/
def candNeg50 : Candidate :=
  { type := .jstr "debit", amount := some (-50), currency := .jstr "INR",
    date := .jstr "2026-01-01", category := .jstr "Other", vendor := .jnull,
    description := .jstr "", raw_text := .jstr "" }

/-- A schema-valid candidate (amount 5). -/
def goodCand : Candidate :=
  { type := .jstr "debit", amount := some 5, currency := .jstr "INR",
    date := .jstr "2026-01-01", category := .jstr "Other", vendor := .jnull,
    description := .jstr "", raw_text := .jstr "" }

def exUser : UserCtx := { user_id := "u", family_id := "f" }

/-- Store for the C4 counterexample: one system template named
`Transport` and one active custom category named `Aquarium`. -/
def exStore : Store :=
  { defaults := [{ default_category_id := "d1", name := "Transport", type := "expense" }],
    cats := [{ category_id := "c1", family_id := "fam", default_category_id := none,
               name := "Aquarium", type := "expense", is_deleted := false }] }

/-! ## Claim C9 — `setProvider` on an unknown name -/

/-- C9: `setProvider` with a name missing from the registry returns `false`;
if a backend is active it is left unchanged; if none is active and at least
one backend is registered, the first registered backend becomes active. -/
theorem setProvider_unknown_spec {P : Type} (st : Registry P) (name : String)
    (h : mapGet st.providers (jsToLower name) = none) :
    (setProvider st name).1 = false ∧
    (∀ p, st.current = some p → (setProvider st name).2.current = some p) ∧
    (∀ k p rest, st.current = none → st.providers = (k, p) :: rest →
      (setProvider st name).2.current = some p) := by
  have hred : setProvider st name =
      (if st.current.isNone && !st.providers.isEmpty then
        (false, { st with current := st.providers.head?.map (fun e => e.2) })
      else (false, st)) := by
    unfold setProvider
    rw [h]
  refine ⟨?_, ?_, ?_⟩
  · rw [hred]
    split <;> rfl
  · intro p hp
    rw [hred]
    simp [hp]
  · intro k p rest hc hl
    rw [hred]
    simp [hc, hl]

/-- Witness for C9 at a concrete registry: one registered backend
`("gemini", "G")`, none active, unknown name `"nope"`. -/
theorem setProvider_unknown_witness :
    (setProvider (Registry.mk [("gemini", "G")] none) "nope").1 = false ∧
    (setProvider (Registry.mk [("gemini", "G")] none) "nope").2.current = some "G" := by
  have h := setProvider_unknown_spec (Registry.mk [("gemini", "G")] none) "nope" (by decide)
  exact ⟨h.1, h.2.2 "gemini" "G" [] rfl rfl⟩

/-! ## Claim C7 — empty transcript short-circuits `extractFromAudio` -/

/-- C7: when transcription yields an empty or whitespace-only transcript,
`extractFromAudio` fails with the distinct empty-transcript condition
(`'No text could be transcribed from audio'`, modelled as
`AudioErr.transcriptionFailed`, a different constructor from a provider
failure), and the result is the same for every extraction function — text
extraction is never invoked on the empty transcript. -/
theorem extractFromAudio_empty_transcript (t : String) (h : jsTrim t = "")
    (extract extract2 : String → Option ParseOut) :
    extractFromAudio (.ok t) extract = .error .transcriptionFailed ∧
    extractFromAudio (.ok t) extract = extractFromAudio (.ok t) extract2 := by
  have hc : (t == "" || (jsTrim t).length == 0) = true := by
    rw [h]
    simp
  unfold extractFromAudio
  simp [hc]

/-- Witness for C7 at the whitespace transcript `" "`. -/
theorem extractFromAudio_empty_witness :
    extractFromAudio (.ok " ") (fun _ => none) = .error .transcriptionFailed :=
  (extractFromAudio_empty_transcript " " (by decide) (fun _ => none) (fun _ => none)).1

/-! ## Claim C2 — exact match outranks fuzzy matching -/

/-- C2 counterexample: the label `" zzz"` is literally (hence
case-insensitively) equal to the display name of `exCatB`, yet resolution
returns `exCatA`'s identifier: the exact tier compares the *trimmed* label
against untrimmed catalog names, so `exCatB` misses the exact tier and the
substring tier hits `exCatA` first. -/
theorem getCategoryByName_exact_counterexample :
    jsToLower exCatB.name = jsToLower " zzz" ∧
    exCatB.category_id = "id-b" ∧
    getCategoryByName " zzz" [exCatA, exCatB] = some "id-a" ∧
    "id-a" ≠ "id-b" := by decide

/-- C2 amended: if some catalog entry's lowercased display name equals the
lowercased *and trimmed* label, resolution returns the identifier of the
first such entry, whatever the synonym table contains (the table is an
arbitrary argument here; the source instantiates `categoryMappings`). -/
theorem getCategoryByName_exact_first (table : List (String × List String))
    (label : String) (cats : List Category) (c : Category)
    (h : cats.find? (fun cat => jsToLower cat.name == jsTrim (jsToLower label)) = some c) :
    getCategoryByNameWith table label cats = some c.category_id := by
  have hne : cats.isEmpty = false := by
    cases cats
    · simp at h
    · rfl
  unfold getCategoryByNameWith
  rw [hne]
  simp only [Bool.false_eq_true, if_false, h]

/-- Witness for C2 (amended) with the empty synonym table and the label
`"FOOD"` exactly matching the entry named `"food"`. -/
theorem getCategoryByName_exact_witness :
    getCategoryByNameWith [] "FOOD" [exCatFood] = some "id-food" :=
  getCategoryByName_exact_first [] "FOOD" [exCatFood] exCatFood (by decide)

/-! ## Claim C3 — fallback tier of the resolver -/

/-- C3: for a label missing every exact, synonym, and substring tier, the
resolver returns the identifier of the (first) catalog entry named `other`
(case-insensitively) with `expense` polarity, and `none` when no such entry
exists.  The function is total, so "never throws" holds by construction
(the source wraps the body in a catch-all returning `null`). -/
theorem getCategoryByName_fallback (label : String) (cats : List Category)
    (hexact : cats.find? (fun cat => jsToLower cat.name == jsTrim (jsToLower label)) = none)
    (hfuzzy : fuzzyMatchCategory label cats = none) :
    getCategoryByName label cats = (cats.find? isOtherExpense).map (fun c => c.category_id) := by
  cases cats with
  | nil => simp [getCategoryByName, getCategoryByNameWith]
  | cons a l =>
    unfold getCategoryByName getCategoryByNameWith
    rw [show (a :: l).isEmpty = false from rfl]
    simp only [Bool.false_eq_true, if_false, hexact]
    rw [show fuzzyMatchCategoryWith categoryMappings label (a :: l) =
          fuzzyMatchCategory label (a :: l) from rfl, hfuzzy]
    cases hfind : (a :: l).find? isOtherExpense <;> simp [hfind]

/-- Witness for C3: the label `"pilates"` misses every tier; with an
`Other`/expense entry present resolution returns its id, and with a catalog
lacking such an entry it returns `none`. -/
theorem getCategoryByName_fallback_witness :
    getCategoryByName "pilates" [exOther] = some "id-other" ∧
    getCategoryByName "pilates" [exCatFood] = none := by
  constructor
  · exact (getCategoryByName_fallback "pilates" [exOther] (by decide) (by decide)).trans
      (by decide)
  · exact (getCategoryByName_fallback "pilates" [exCatFood] (by decide) (by decide)).trans
      (by decide)

/-! ## Claim C10 — resolver totality and catalog-scoped results -/

theorem findByTargets_mem {avail : List Category} {ts : List String} {c : Category}
    (h : findByTargets avail ts = some c) : c ∈ avail := by
  induction ts with
  | nil => simp [findByTargets] at h
  | cons t ts ih =>
    unfold findByTargets at h
    cases hf : avail.find? (fun cat => strIncludes (jsToLower cat.name) (jsToLower t)) with
    | none =>
      rw [hf] at h
      exact ih h
    | some d =>
      rw [hf] at h
      cases h
      exact List.mem_of_find?_eq_some hf

theorem keywordScan_mem {avail : List Category} {r : String}
    {table : List (String × List String)} {c : Category}
    (h : keywordScan avail r table = some c) : c ∈ avail := by
  induction table with
  | nil => simp [keywordScan] at h
  | cons kv rest ih =>
    unfold keywordScan at h
    by_cases hkw : strIncludes r kv.1 = true
    · rw [hkw] at h
      simp only [if_true] at h
      cases hf : findByTargets avail kv.2 with
      | none =>
        rw [hf] at h
        exact ih h
      | some d =>
        rw [hf] at h
        cases h
        exact findByTargets_mem hf
    · rw [Bool.of_not_eq_true hkw] at h
      simp only [Bool.false_eq_true, if_false] at h
      exact ih h

theorem fuzzyMatchCategoryWith_mem {table : List (String × List String)}
    {label : String} {avail : List Category} {c : Category}
    (h : fuzzyMatchCategoryWith table label avail = some c) : c ∈ avail := by
  simp only [fuzzyMatchCategoryWith] at h
  cases hk : keywordScan avail (jsTrim (jsToLower label)) table with
  | none =>
    rw [hk] at h
    exact List.mem_of_find?_eq_some h
  | some d =>
    rw [hk] at h
    cases h
    exact keywordScan_mem hk

theorem getCategoryByName_mem (s : String) (cats : List Category) :
    getCategoryByName s cats = none ∨
    ∃ c ∈ cats, getCategoryByName s cats = some c.category_id := by
  unfold getCategoryByName getCategoryByNameWith
  cases hne : cats.isEmpty with
  | true => simp
  | false =>
    simp only [hne, Bool.false_eq_true, if_false]
    cases hex : cats.find? (fun cat => jsToLower cat.name == jsTrim (jsToLower s)) with
    | some c =>
      simp only [hex]
      exact Or.inr ⟨c, List.mem_of_find?_eq_some hex, rfl⟩
    | none =>
      simp only [hex]
      cases hfz : fuzzyMatchCategoryWith categoryMappings s cats with
      | some c =>
        simp only [hfz]
        exact Or.inr ⟨c, fuzzyMatchCategoryWith_mem hfz, rfl⟩
      | none =>
        simp only [hfz]
        cases hot : cats.find? isOtherExpense with
        | some c =>
          simp only [hot]
          exact Or.inr ⟨c, List.mem_of_find?_eq_some hot, rfl⟩
        | none =>
          simp only [hot]
          exact Or.inl trivial

/-- C10: for every label value — `undefined`, `null`, a non-string, or any
string — and every catalog list (empty included), the resolver never throws
(it is a total function) and returns either `null` or the `category_id` of
some element of the supplied catalog; it never fabricates an identifier. -/
theorem getCategoryByName_safe (label : Option JVal) (cats : List Category) :
    getCategoryByNameJS label cats = none ∨
    ∃ c ∈ cats, getCategoryByNameJS label cats = some c.category_id := by
  match label with
  | none => exact Or.inl rfl
  | some .jnull => exact Or.inl rfl
  | some (.jbool b) => exact Or.inl rfl
  | some (.jnum q) => exact Or.inl rfl
  | some (.jarr l) => exact Or.inl rfl
  | some (.jobj f) => exact Or.inl rfl
  | some (.jstr s) => exact getCategoryByName_mem s cats

/-! ## Claim C5 — shapes of the normalizer's output -/

theorem mapNormalize_eq (today : String) (l : List JVal)
    (h : l.all (fun e => !normThrows today e) = true) :
    mapNormalize today l = .ok (l.map (normKeep today)) := by
  induction l with
  | nil => rfl
  | cons t ts ih =>
    simp only [List.all_cons, Bool.and_eq_true] at h
    unfold mapNormalize
    cases hn : normalizeTransaction today t with
    | error e =>
      exfalso
      have := h.1
      rw [normThrows, hn] at this
      simp at this
    | ok c =>
      rw [ih h.2]
      simp [normKeep, hn]

/-- C5 counterexample: an array whose every element is dropped yields `null`
— the same observable as a parse failure — not an empty list; and a single
JSON object yields a bare candidate, not a one-element list (the one-element
wrapping happens in the message controller, not in the normalizer). -/
theorem parseTransactionJSON_counterexample :
    parseTransactionJSON "2026-01-01" (some (.jarr [.jobj [("amount", .jnum 0)]])) = none ∧
    parseTransactionJSON "2026-01-01" none = none ∧
    parseTransactionJSON "2026-01-01" (some (.jobj [("amount", .jnum 7)])) =
      some (.single cand7) ∧
    some (ParseOut.single cand7) ≠ some (ParseOut.multiple [cand7]) := by
  refine ⟨rfl, rfl, rfl, ?_⟩
  simp

/-- C5 amended: for an array input none of whose elements makes the JS
normalizer throw, each element is normalized and the droppable ones are
excluded; when at least one candidate survives the survivor list is returned
in order, and when every element is dropped the result is `null`,
indistinguishable from a parse failure.  A single (truthy) JSON object is
normalized to a bare candidate; the message-controller caller wraps a
non-null single result into a one-element list. -/
theorem parseTransactionJSON_shapes (today : String) :
    (∀ l : List JVal, l.all (fun e => !normThrows today e) = true →
      parseTransactionJSON today (some (.jarr l)) =
        (if (l.filterMap (normKeep today)).isEmpty then none
         else some (.multiple (l.filterMap (normKeep today))))) ∧
    (∀ (fields : List (String × JVal)) (c : Candidate),
      normalizeTransaction today (.jobj fields) = .ok (some c) →
      resultToList (parseTransactionJSON today (some (.jobj fields))) = some [c]) := by
  constructor
  · intro l h
    have hred : parseTransactionJSON today (some (.jarr l)) =
        (match mapNormalize today l with
         | .error _ => none
         | .ok opts =>
           if (opts.filterMap id).length > 0 then
             some (.multiple (opts.filterMap id))
           else none) := rfl
    rw [hred, mapNormalize_eq today l h]
    have hmap : (l.map (normKeep today)).filterMap id = l.filterMap (normKeep today) := by
      rw [List.filterMap_map]
      rfl
    simp only [hmap]
    cases hns : l.filterMap (normKeep today) with
    | nil => simp
    | cons a t => simp
  · intro fields c hc
    have hred : parseTransactionJSON today (some (.jobj fields)) =
        (match normalizeTransaction today (.jobj fields) with
         | .error _ => none
         | .ok none => none
         | .ok (some c) => some (.single c)) := rfl
    rw [show resultToList (parseTransactionJSON today (some (.jobj fields))) =
          resultToList (match normalizeTransaction today (.jobj fields) with
           | .error _ => none
           | .ok none => none
           | .ok (some c) => some (.single c)) from by rw [hred]]
    rw [hc]
    rfl

/-- Witness for C5 (amended) at concrete inputs: the two-element array
`[{"amount": 7}, {"amount": 0}]` keeps exactly the first candidate, and the
single object `{"amount": 7}` reaches the caller as the one-element list. -/
theorem parseTransactionJSON_shapes_witness :
    parseTransactionJSON "2026-01-01"
      (some (.jarr [.jobj [("amount", .jnum 7)], .jobj [("amount", .jnum 0)]])) =
      some (.multiple [cand7]) ∧
    resultToList (parseTransactionJSON "2026-01-01" (some (.jobj [("amount", .jnum 7)]))) =
      some [cand7] := by
  constructor
  · have h := (parseTransactionJSON_shapes "2026-01-01").1
      [.jobj [("amount", .jnum 7)], .jobj [("amount", .jnum 0)]] (by decide)
    rw [h]
    rfl
  · exact (parseTransactionJSON_shapes "2026-01-01").2 [("amount", .jnum 7)] cand7 rfl

/-! ## Claim C1 — amounts in the normalizer and at persistence -/

/-- Joi `transactionSchema` acceptance forces a strictly positive amount. -/
theorem transactionValid_amount {dateOk : JVal → Bool} {c : Candidate}
    (h : transactionValid dateOk c = true) : ∃ q, c.amount = some q ∧ 0 < q := by
  unfold transactionValid at h
  simp only [Bool.and_eq_true] at h
  have ha : amountOk c.amount = true := h.1.1.1.1.1.1.2
  cases hq : c.amount with
  | none =>
    rw [hq] at ha
    exact absurd ha (by simp [amountOk])
  | some q =>
    refine ⟨q, rfl, ?_⟩
    rw [hq] at ha
    simpa [amountOk] using ha

/-- C1 counterexample: the element `{"amount": -50}` is *not* excluded by the
normalizer — `!txn.amount` only rejects falsy amounts, and `-50` is truthy —
so a candidate with amount `-50 ≤ 0` appears in the normalizer's output. -/
theorem normalizer_negative_amount_counterexample :
    normalizeTransaction "2026-01-01" (.jobj [("amount", .jnum (-50))]) =
      .ok (some candNeg50) ∧
    parseTransactionJSON "2026-01-01" (some (.jarr [.jobj [("amount", .jnum (-50))]])) =
      some (.multiple [candNeg50]) ∧
    candNeg50.amount = some (-50) ∧ ((-50 : ℚ) ≤ 0) := by
  refine ⟨rfl, rfl, rfl, by norm_num⟩

/-- C1 amended: the normalizer excludes exactly the elements whose `amount`
property is falsy (absent, `null`, `0`, `""`, `false`) — a negative amount
passes normalization — and the Joi schema of the persistence step accepts
only strictly positive amounts, so every row the pipeline persists carries a
strictly positive amount. -/
theorem amount_gate (today : String) :
    (∀ fields : List (String × JVal), jsTruthyOpt (jlookup fields "amount") = false →
      normalizeTransaction today (.jobj fields) = .ok none) ∧
    (∀ (dateOk : JVal → Bool) (c : Candidate),
      transactionValid dateOk c = true → ∃ q, c.amount = some q ∧ 0 < q) ∧
    (∀ (dateOk : JVal → Bool) (insertOk : TxRow → Bool) (user : UserCtx)
        (cats : List Category) (l : List Candidate) (row : TxRow),
      SaveOutcome.saved row ∈ processCandidates dateOk insertOk user cats l →
      ∃ q, row.amount = some q ∧ 0 < q) := by
  refine ⟨?_, ?_, ?_⟩
  · intro fields h
    simp [normalizeTransaction, h]
  · intro dateOk c h
    exact transactionValid_amount h
  · intro dateOk insertOk user cats l row hmem
    induction l with
    | nil => simp [processCandidates] at hmem
    | cons t ts ih =>
      simp only [processCandidates, List.mem_cons] at hmem
      cases hmem with
      | inr h => exact ih h
      | inl h =>
        unfold saveTransaction at h
        by_cases hv : transactionValid dateOk t = false
        · rw [if_pos hv] at h
          exact absurd h (by simp)
        · rw [if_neg hv] at h
          have hvt : transactionValid dateOk t = true := by
            cases hb : transactionValid dateOk t
            · exact absurd hb hv
            · rfl
          by_cases hins : insertOk (mkTxRow user cats t) = true
          · rw [if_pos hins] at h
            have hrow : row = mkTxRow user cats t := by
              injection h with h'
            obtain ⟨q, hq, hq0⟩ := transactionValid_amount hvt
            exact ⟨q, by rw [hrow]; exact hq, hq0⟩
          · rw [if_neg hins] at h
            exact absurd h (by simp)

/-- Witness for C1 (amended): `{"amount": 0}` is dropped by the normalizer;
the valid candidate with amount `5` is accepted by the schema; in a concrete
pipeline run with candidates `[-50, 5]`, the persisted row carries a positive
amount. -/
theorem amount_gate_witness :
    normalizeTransaction "2026-01-01" (.jobj [("amount", .jnum 0)]) = .ok none ∧
    (∃ q, goodCand.amount = some q ∧ 0 < q) ∧
    (∃ q, (mkTxRow exUser [] goodCand).amount = some q ∧ 0 < q) := by
  refine ⟨?_, ?_, ?_⟩
  · exact (amount_gate "2026-01-01").1 [("amount", .jnum 0)] (by decide)
  · exact (amount_gate "2026-01-01").2.1 (fun _ => true) goodCand (by decide)
  · refine (amount_gate "2026-01-01").2.2 (fun _ => true) (fun _ => true) exUser []
      [candNeg50, goodCand] (mkTxRow exUser [] goodCand) ?_
    have hlist : processCandidates (fun _ => true) (fun _ => true) exUser []
        [candNeg50, goodCand] =
        [SaveOutcome.validationFailed, SaveOutcome.saved (mkTxRow exUser [] goodCand)] := rfl
    rw [hlist]
    simp

/-! ## Claim C6 — per-candidate independence of the save loop -/

theorem processCandidates_append (dateOk : JVal → Bool) (insertOk : TxRow → Bool)
    (user : UserCtx) (cats : List Category) (xs ys : List Candidate) :
    processCandidates dateOk insertOk user cats (xs ++ ys) =
      processCandidates dateOk insertOk user cats xs ++
      processCandidates dateOk insertOk user cats ys := by
  induction xs with
  | nil => rfl
  | cons a l ih => simp [processCandidates, ih]

/-- C6: candidates from one input are saved independently.  A candidate that
fails validation produces a `validationFailed` outcome (no row written), and
a candidate whose store write fails produces `persistFailed`; in both cases
every sibling candidate before and after it is processed exactly as it would
be on its own. -/
theorem processCandidates_independent (dateOk : JVal → Bool) (insertOk : TxRow → Bool)
    (user : UserCtx) (cats : List Category) (pre post : List Candidate) (bad : Candidate) :
    (transactionValid dateOk bad = false →
      processCandidates dateOk insertOk user cats (pre ++ bad :: post) =
        processCandidates dateOk insertOk user cats pre ++
        SaveOutcome.validationFailed :: processCandidates dateOk insertOk user cats post) ∧
    (transactionValid dateOk bad = true → insertOk (mkTxRow user cats bad) = false →
      processCandidates dateOk insertOk user cats (pre ++ bad :: post) =
        processCandidates dateOk insertOk user cats pre ++
        SaveOutcome.persistFailed :: processCandidates dateOk insertOk user cats post) := by
  have hstep : processCandidates dateOk insertOk user cats (bad :: post) =
      saveTransaction dateOk insertOk user cats bad ::
      processCandidates dateOk insertOk user cats post := rfl
  constructor
  · intro hbad
    have hsave : saveTransaction dateOk insertOk user cats bad =
        SaveOutcome.validationFailed := by
      unfold saveTransaction
      rw [if_pos hbad]
    rw [processCandidates_append, hstep, hsave]
  · intro hbad hins
    have hsave : saveTransaction dateOk insertOk user cats bad =
        SaveOutcome.persistFailed := by
      unfold saveTransaction
      rw [if_neg (by simp [hbad]), if_neg (by simp [hins])]
    rw [processCandidates_append, hstep, hsave]

/-- Witness for C6: with siblings `[goodCand]` before and after, the `-50`
candidate fails validation without stopping them; and with a failing store
write every candidate yields `persistFailed` yet the loop still visits all. -/
theorem processCandidates_independent_witness :
    processCandidates (fun _ => true) (fun _ => true) exUser []
        ([goodCand] ++ candNeg50 :: [goodCand]) =
      processCandidates (fun _ => true) (fun _ => true) exUser [] [goodCand] ++
        SaveOutcome.validationFailed ::
          processCandidates (fun _ => true) (fun _ => true) exUser [] [goodCand] ∧
    processCandidates (fun _ => true) (fun _ => false) exUser []
        ([] ++ goodCand :: [candNeg50]) =
      processCandidates (fun _ => true) (fun _ => false) exUser [] [] ++
        SaveOutcome.persistFailed ::
          processCandidates (fun _ => true) (fun _ => false) exUser [] [candNeg50] := by
  constructor
  · exact (processCandidates_independent (fun _ => true) (fun _ => true) exUser []
      [goodCand] [goodCand] candNeg50).1 (by decide)
  · exact (processCandidates_independent (fun _ => true) (fun _ => false) exUser []
      [] [candNeg50] goodCand).2 (by decide) rfl

/-! ## Claim C4 — the merged catalog listing -/

theorem mem_insertByName {c v : CatView} {l : List CatView} :
    v ∈ insertByName c l ↔ v = c ∨ v ∈ l := by
  induction l with
  | nil => simp [insertByName]
  | cons d ds ih =>
    unfold insertByName
    by_cases hle : nameLe c.name d.name = true
    · rw [if_pos hle]
      simp [List.mem_cons]
    · rw [if_neg hle]
      simp only [List.mem_cons, ih]
      tauto

theorem mem_sortByName {v : CatView} {l : List CatView} :
    v ∈ sortByName l ↔ v ∈ l := by
  induction l with
  | nil => simp [sortByName]
  | cons c cs ih =>
    unfold sortByName
    rw [mem_insertByName]
    simp [ih]

theorem lexLeCh_total (a b : List Char) :
    lexLeCh a b = true ∨ lexLeCh b a = true := by
  induction a generalizing b with
  | nil => exact Or.inl rfl
  | cons x xs ih =>
    cases b with
    | nil => exact Or.inr rfl
    | cons y ys =>
      unfold lexLeCh
      by_cases hxy : x.toNat = y.toNat
      · rw [if_pos hxy, if_pos hxy.symm]
        exact ih ys
      · rw [if_neg hxy, if_neg (fun hh => hxy hh.symm)]
        rcases Nat.lt_or_ge x.toNat y.toNat with hlt | hge
        · exact Or.inl (by simpa using hlt)
        · have : y.toNat < x.toNat :=
            lt_of_le_of_ne hge (fun hh => hxy hh.symm)
          exact Or.inr (by simpa using this)

theorem nameLe_total (a b : String) : nameLe a b = true ∨ nameLe b a = true :=
  lexLeCh_total a.data b.data

theorem sortedNames_insertByName {c : CatView} {l : List CatView}
    (h : sortedNames l = true) : sortedNames (insertByName c l) = true := by
  induction l with
  | nil => rfl
  | cons d ds ih =>
    unfold insertByName
    by_cases hle : nameLe c.name d.name = true
    · rw [if_pos hle]
      simp [sortedNames, hle, h]
    · rw [if_neg hle]
      have hdc : nameLe d.name c.name = true := by
        rcases nameLe_total c.name d.name with hcd | hdc
        · exact absurd hcd hle
        · exact hdc
      cases ds with
      | nil => simp [insertByName, sortedNames, hdc]
      | cons e es =>
        have hde : nameLe d.name e.name = true := by
          have := h
          simp only [sortedNames, Bool.and_eq_true] at this
          exact this.1
        have hes : sortedNames (e :: es) = true := by
          have := h
          simp only [sortedNames, Bool.and_eq_true] at this
          simpa [sortedNames] using this.2
        by_cases hce : nameLe c.name e.name = true
        · rw [show insertByName c (e :: es) = c :: e :: es from by
            simp only [insertByName]
            rw [if_pos hce]]
          simp [sortedNames, hdc, hce, hes]
        · rw [show insertByName c (e :: es) = e :: insertByName c es from by
            simp only [insertByName]
            rw [if_neg hce]]
          have hrec : sortedNames (e :: insertByName c es) = true := by
            have := ih hes
            rw [show insertByName c (e :: es) = e :: insertByName c es from by
              simp only [insertByName]
              rw [if_neg hce]] at this
            exact this
          cases hi : insertByName c es with
          | nil => simp [sortedNames, hde]
          | cons f fs =>
            rw [hi] at hrec
            simp only [sortedNames, Bool.and_eq_true] at hrec ⊢
            exact ⟨hde, hrec⟩

theorem sortedNames_sortByName (l : List CatView) :
    sortedNames (sortByName l) = true := by
  induction l with
  | nil => rfl
  | cons c cs ih =>
    unfold sortByName
    exact sortedNames_insertByName ih

/-- C4 counterexample: with one system template `Transport` and one active
custom category `Aquarium`, the listing returns
`["Transport", "Aquarium"]` — templates first, customs second — which is not
sorted by name. -/
theorem getCategoriesForFamily_counterexample :
    (getCategoriesForFamily exStore "fam").map (fun v => v.name) =
      ["Transport", "Aquarium"] ∧
    sortedNames (getCategoriesForFamily exStore "fam") = false := by decide

/-- C4 amended: the listing merges all system templates with the tenant's
active custom categories — a returned row is either the view of some template
or of some non-tombstoned custom row of the family, and every such row
appears — and each of the two segments is sorted by name; the concatenated
list itself need not be sorted (templates come first). -/
theorem getCategoriesForFamily_spec (st : Store) (familyId : String) :
    (∀ v, v ∈ getCategoriesForFamily st familyId ↔
      ((∃ dc ∈ st.defaults, defaultView dc = v) ∨
       (∃ c ∈ st.cats, isCustomActive familyId c = true ∧ catView c = v))) ∧
    sortedNames (sortByName (st.defaults.map defaultView)) = true ∧
    sortedNames (sortByName ((st.cats.filter (isCustomActive familyId)).map catView)) =
      true := by
  refine ⟨?_, sortedNames_sortByName _, sortedNames_sortByName _⟩
  intro v
  unfold getCategoriesForFamily
  simp only [List.mem_append, mem_sortByName, List.mem_map, List.mem_filter]
  constructor
  · rintro (⟨dc, hdc, hv⟩ | ⟨c, ⟨hc, hact⟩, hv⟩)
    · exact Or.inl ⟨dc, hdc, hv⟩
    · exact Or.inr ⟨c, hc, hact, hv⟩
  · rintro (⟨dc, hdc, hv⟩ | ⟨c, hc, hact, hv⟩)
    · exact Or.inl ⟨dc, hdc, hv⟩
    · exact Or.inr ⟨c, ⟨hc, hact⟩, hv⟩

/-! ## Claim C8 — idempotent custom-category creation -/

theorem likeMatch_percent {ps s : List Char} (h : likeMatch ps s = true) :
    likeMatch ('%' :: ps) s = true := by
  cases s with
  | nil =>
    simp only [likeMatch, if_pos rfl]
    exact h
  | cons c cs =>
    simp only [likeMatch, if_pos rfl]
    simp [h]

theorem likeMatch_self (l : List Char) : likeMatch l l = true := by
  induction l with
  | nil => simp [likeMatch]
  | cons c cs ih =>
    by_cases hp : c = '%'
    · subst hp
      simp only [likeMatch, if_pos rfl]
      have := likeMatch_percent ih
      simp [this]
    · simp only [likeMatch]
      rw [if_neg hp]
      by_cases hu : c = '_'
      · rw [if_pos hu]
        exact ih
      · rw [if_neg hu]
        simp [ih]

theorem iLike_self (n : String) : iLike n n = true :=
  likeMatch_self (jsToLower n).data

/-- `ILIKE` sees only the lowercased pattern, so two case-insensitively equal
names match the same rows. -/
theorem iLike_congr {n1 n2 : String} (hcase : jsToLower n1 = jsToLower n2)
    (s : String) : iLike n1 s = iLike n2 s := by
  unfold iLike
  rw [hcase]

/-- A name matches `ILIKE` against any case-insensitively equal pattern. -/
theorem iLike_of_lower_eq {n1 n2 : String} (hcase : jsToLower n1 = jsToLower n2) :
    iLike n2 n1 = true := by
  unfold iLike
  rw [hcase]
  exact likeMatch_self (jsToLower n2).data

theorem activeCustomMatches_congr {n1 n2 : String}
    (hcase : jsToLower n1 = jsToLower n2) (st : Store) (familyId : String) :
    activeCustomMatches st n1 familyId = activeCustomMatches st n2 familyId := by
  unfold activeCustomMatches
  congr 1
  funext c
  rw [iLike_congr hcase]

/-- C8: creating a custom category twice in sequence with the same tenant,
the same case-insensitive name — the second call may spell the name with
different casing, `jsToLower name1 = jsToLower name2` — and the same polarity
yields exactly one active matching CategoryInstance: provided the tenant
starts with at most one active custom row matching the name (the catalog
invariant), after the first call exactly one such row exists, and the second
call inserts nothing and returns that row's identifier (the `ILIKE` lookup
matches the stored name whatever its casing). -/
theorem addCategoryToFamily_idempotent (st : Store)
    (familyId name1 name2 ctype id1 id2 : String)
    (hcase : jsToLower name1 = jsToLower name2)
    (h : (activeCustomMatches st name1 familyId).length ≤ 1) :
    ∃ c : Category,
      activeCustomMatches (addCategoryToFamily st familyId name1 ctype id1).2
          name2 familyId = [c] ∧
      addCategoryToFamily (addCategoryToFamily st familyId name1 ctype id1).2
          familyId name2 ctype id2 =
        (some c.category_id, (addCategoryToFamily st familyId name1 ctype id1).2) := by
  cases hm : activeCustomMatches st name1 familyId with
  | nil =>
    have hm2 : activeCustomMatches st name2 familyId = [] := by
      rw [← activeCustomMatches_congr hcase]
      exact hm
    have hfind : findCategoryIdByName st name1 familyId = none := by
      unfold findCategoryIdByName
      rw [hm]
    have hadd1 : addCategoryToFamily st familyId name1 ctype id1 =
        (some id1,
         { st with cats := st.cats ++ [newCustomRow familyId name1 ctype id1] }) := by
      unfold addCategoryToFamily
      rw [hfind]
    have hmatch1 : activeCustomMatches
        { st with cats := st.cats ++ [newCustomRow familyId name1 ctype id1] }
        name2 familyId = [newCustomRow familyId name1 ctype id1] := by
      unfold activeCustomMatches at hm2 ⊢
      rw [List.filter_append, hm2]
      simp [newCustomRow, iLike_of_lower_eq hcase]
    have hfind2 : findCategoryIdByName
        { st with cats := st.cats ++ [newCustomRow familyId name1 ctype id1] }
        name2 familyId = some id1 := by
      unfold findCategoryIdByName
      rw [hmatch1]
      rfl
    refine ⟨newCustomRow familyId name1 ctype id1, ?_, ?_⟩
    · rw [hadd1]
      exact hmatch1
    · rw [hadd1]
      show addCategoryToFamily _ _ _ _ _ = _
      unfold addCategoryToFamily
      rw [hfind2]
      rfl
  | cons c rest =>
    cases rest with
    | nil =>
      have hm2 : activeCustomMatches st name2 familyId = [c] := by
        rw [← activeCustomMatches_congr hcase]
        exact hm
      have hfind : findCategoryIdByName st name1 familyId = some c.category_id := by
        unfold findCategoryIdByName
        rw [hm]
      have hfind2 : findCategoryIdByName st name2 familyId = some c.category_id := by
        unfold findCategoryIdByName
        rw [hm2]
      have hadd1 : addCategoryToFamily st familyId name1 ctype id1 =
          (some c.category_id, st) := by
        unfold addCategoryToFamily
        rw [hfind]
      refine ⟨c, ?_, ?_⟩
      · rw [hadd1]
        exact hm2
      · rw [hadd1]
        show addCategoryToFamily st _ _ _ _ = _
        unfold addCategoryToFamily
        rw [hfind2]
    | cons d rest2 =>
      exfalso
      rw [hm] at h
      simp at h

/-- Witness for C8: starting from an empty store, `createCustom` for
`("fam", "Pets", expense)` followed by `createCustom` for
`("fam", "PETS", expense)` — the same name up to case — leaves exactly one
active matching instance, the one the first call created. -/
theorem addCategoryToFamily_idempotent_witness :
    ∃ c : Category,
      activeCustomMatches
        (addCategoryToFamily (Store.mk [] []) "fam" "Pets" "expense" "id1").2 "PETS" "fam"
        = [c] ∧
      addCategoryToFamily
          (addCategoryToFamily (Store.mk [] []) "fam" "Pets" "expense" "id1").2
          "fam" "PETS" "expense" "id2" =
        (some c.category_id,
         (addCategoryToFamily (Store.mk [] []) "fam" "Pets" "expense" "id1").2) :=
  addCategoryToFamily_idempotent (Store.mk [] []) "fam" "Pets" "PETS" "expense"
    "id1" "id2" (by decide) (by decide)

end WaFinance
